import Mathlib

/-!
spacecat-caption: verification of the file/caption/settings layer.

A shallow embedding of the TypeScript frontend of `spacecat-caption`
(`src/lib/fs.ts`, `src/lib/api.ts`, `src/lib/settings.ts`, `src/App.tsx`)
together with spec-modelled versions of the Tauri (Rust) commands the
frontend invokes, whose source is not part of this snapshot.
-/

namespace Spacecat

/-- `ImageDetailLevel` from `src/lib/settings.ts`: `'auto' | 'low' | 'high'`. -/
inductive ImageDetailLevel where
  | auto
  | low
  | high
deriving DecidableEq, Repr

/-- `ApiProvider` from `src/lib/settings.ts`: `'openai' | 'gemini'`. -/
inductive ApiProvider where
  | openai
  | gemini
deriving DecidableEq, Repr

/-- The `MediaFile` interface from `src/lib/fs.ts`.  Optional TypeScript
fields (`type?`, `selected?`, `thumbnail?`, `refreshToken?`) are modelled
with `Option`, except `selected`, which every code path treats as a
boolean (`undefined` behaves as `false`). -/
structure MediaFile where
  id : String
  name : String
  path : String
  relative_path : String
  file_type : String
  has_caption : Bool
  type : Option String
  selected : Bool
  thumbnail : Option String
  refreshToken : Option Nat
deriving DecidableEq, Repr

/-- `getCaptionPath` from `src/lib/fs.ts`:
`mediaPath.replace(/\.[^.]+$/, '.txt')` on the character list of the path.
The regex matches the last `.` of the string together with the (non-empty,
dot-free) tail that follows it; when the string has no such suffix the
path is returned unchanged. -/
def getCaptionPath (mediaPath : String) : String :=
  let rev := mediaPath.toList.reverse
  let sfx := rev.takeWhile (fun c => c ≠ '.')
  let rest := rev.dropWhile (fun c => c ≠ '.')
  match rest with
  | [] => mediaPath
  | _ :: stem =>
      if sfx.isEmpty then mediaPath
      else String.mk (stem.reverse ++ ".txt".toList)

/-! ## Caption I/O (spec §4.3)

The Rust commands `read_caption_file` and `write_caption_file` live in the
Tauri backend, which is not part of this source snapshot; they are modelled
from the spec over a filesystem abstracted as a partial map from paths to
file contents.  `readCaption` and `writeCaption` are the TypeScript
wrappers from `src/lib/api.ts` (the `useFileSystem` hook). -/

/-- A filesystem: a partial map from absolute paths to text contents. -/
abbrev Fs : Type := String → Option String

/-- Modelled from the spec: the Rust `read_caption_file` command.  Missing
from the snapshot (only its `invoke` declaration in `src/lib/fs.ts` is
present).  Spec §4.3: reading a sidecar file yields its content; an absent
file is an error surfaced to the caller (the TS wrapper catches it). -/
def read_caption_file (fs : Fs) (path : String) : Except String String :=
  match fs path with
  | some content => Except.ok content
  | none => Except.error "file not found"

/-- Modelled from the spec: the Rust `write_caption_file` command.  Missing
from the snapshot.  Spec §4.3: "Write overwrites entirely (no merge)": the
sidecar's content becomes exactly the string written. -/
def write_caption_file (fs : Fs) (path content : String) : Fs :=
  fun p => if p = path then some content else fs p

/-- `readCaption` from the `useFileSystem` hook: computes the caption path
with `getCaptionPath`, reads it, and returns the empty string when the
read fails (the `catch` branch). -/
def readCaption (fs : Fs) (mediaFile : MediaFile) : String :=
  match read_caption_file fs (getCaptionPath mediaFile.path) with
  | Except.ok c => c
  | Except.error _ => ""

/-- `writeCaption` from the `useFileSystem` hook: writes the caption file
and marks the matching entry of the media-file list as captioned.
Returns the updated filesystem, the updated list, and the `true` result. -/
def writeCaption (fs : Fs) (state : List MediaFile) (mediaFile : MediaFile)
    (content : String) : Fs × List MediaFile × Bool :=
  let captionPath := getCaptionPath mediaFile.path
  let fs' := write_caption_file fs captionPath content
  (fs',
   state.map (fun f => if f.id = mediaFile.id then { f with has_caption := true } else f),
   true)

/-! ## Directory duplication and listing (spec §4.1, §4.2)

`duplicate_directory` and `list_directory_files` are Rust commands missing
from the snapshot; they are modelled from the spec.  A directory is its
set of entries, each a (path relative to the directory root, content)
pair; nested directories are encoded by `/`-separated relative paths. -/

/-- A directory snapshot: the (relative path, content) pairs of every file
under it, nested directories encoded in the relative paths. -/
abbrev Dir : Type := List (String × String)

/-- Modelled from the spec: the Rust `duplicate_directory` command.
Missing from the snapshot.  Spec §4.1: "copy is a full recursive
duplicate" produced by "a linear copy loop" (spec §4, state machine note):
every entry of the source is copied, one by one, into the destination. -/
def duplicate_directory (source : Dir) : Dir :=
  List.foldr (fun entry acc => entry :: acc) [] source

/-- The final extension of a file name: the dot-free suffix after the last
`.`, or `""` when the name has no dot.  Used by the modelled directory
lister to classify files, mirroring the suffix the `getCaptionPath` regex
replaces. -/
def fileExtension (name : String) : String :=
  let rev := name.toList.reverse
  let sfx := rev.takeWhile (fun c => c ≠ '.')
  let rest := rev.dropWhile (fun c => c ≠ '.')
  match rest with
  | [] => ""
  | _ => String.mk sfx.reverse

/-- Modelled from the spec: the Rust `list_directory_files` command.
Missing from the snapshot.  Spec §4.2: scans the directory, classifies
files by extension into image/video (`imageExts` / `videoExts` abstract
the extension tables), detects sidecar captions by filename match, and
returns one `MediaFile` per media file.  `directory` is the absolute path
of the scanned directory, prefixed to each relative path. -/
def list_directory_files (imageExts videoExts : List String) (directory : String)
    (d : Dir) : List MediaFile :=
  (List.filter (fun e =>
      (imageExts.contains (fileExtension e.1) || videoExts.contains (fileExtension e.1))) d).map
    (fun e =>
      { id := directory ++ "/" ++ e.1
        name := e.1
        path := directory ++ "/" ++ e.1
        relative_path := e.1
        file_type := if imageExts.contains (fileExtension e.1) then "image" else "video"
        has_caption := decide ((List.filter (fun s => s.1 = getCaptionPath e.1) d) ≠ [])
        type := none
        selected := false
        thumbnail := none
        refreshToken := none })

/-! ## Settings (`src/lib/settings.ts`)

The store (`LazyStore('settings.json')`) holds, under the key
`'settings'`, a JSON record whose fields may be missing (older versions of
the app saved fewer fields); `loadSettings` migrates missing fields in.
The store is modelled as `Option StoredSettings` (the value under the
`'settings'` key, when present), a stored record as a record of `Option`
fields. -/

/-- The `AppSettings` interface from `src/lib/settings.ts`. -/
structure AppSettings where
  apiUrl : String
  apiKey : String
  captionPrompt : String
  model : String
  imageDetail : ImageDetailLevel
  useDetailParameter : Bool
  geminiApiKey : String
  geminiModel : String
  geminiSystemInstruction : String
  preferredProvider : ApiProvider
  useGeminiForVideos : Bool
deriving DecidableEq, Repr

/-- `DEFAULT_SETTINGS` from `src/lib/settings.ts`. -/
def DEFAULT_SETTINGS : AppSettings :=
  { apiUrl := "https://api.openai.com/v1/chat/completions"
    apiKey := ""
    captionPrompt := "Describe this image in detail:"
    model := "gpt-4o-2024-05-13"
    imageDetail := ImageDetailLevel.auto
    useDetailParameter := true
    geminiApiKey := ""
    geminiModel := "gemini-2.0-flash"
    geminiSystemInstruction := "You are an image and video captioner. Do not mention the medium (e.g. image, video) in the caption itself, simply describe it visually. Return only the caption in json format."
    preferredProvider := ApiProvider.openai
    useGeminiForVideos := true }

/-- A settings record as persisted in the store: each field may be absent
(`'k' in settings` is false), which `loadSettings` migrates. -/
structure StoredSettings where
  apiUrl : Option String
  apiKey : Option String
  captionPrompt : Option String
  model : Option String
  imageDetail : Option ImageDetailLevel
  useDetailParameter : Option Bool
  geminiApiKey : Option String
  geminiModel : Option String
  geminiSystemInstruction : Option String
  preferredProvider : Option ApiProvider
  useGeminiForVideos : Option Bool
deriving DecidableEq, Repr

/-- A full `AppSettings` value as it is written to the store: every field
present. -/
def toStored (s : AppSettings) : StoredSettings :=
  { apiUrl := some s.apiUrl
    apiKey := some s.apiKey
    captionPrompt := some s.captionPrompt
    model := some s.model
    imageDetail := some s.imageDetail
    useDetailParameter := some s.useDetailParameter
    geminiApiKey := some s.geminiApiKey
    geminiModel := some s.geminiModel
    geminiSystemInstruction := some s.geminiSystemInstruction
    preferredProvider := some s.preferredProvider
    useGeminiForVideos := some s.useGeminiForVideos }

/-- The store: the value under the `'settings'` key, when the key exists. -/
abbrev SettingsStore : Type := Option StoredSettings

/-- The migration block of `loadSettings`: each field among `model`,
`imageDetail`, `useDetailParameter`, `geminiApiKey`, `geminiModel`,
`geminiSystemInstruction`, `preferredProvider`, `useGeminiForVideos` that
is missing is filled with its default and `needsUpdate` is set (`apiUrl`,
`apiKey` and `captionPrompt` are not migrated).  Returns the migrated
record and the `needsUpdate` flag. -/
def migrateSettings (s : StoredSettings) : StoredSettings × Bool :=
  let u1 := s.model.isNone
  let s1 := { s with model := some (s.model.getD DEFAULT_SETTINGS.model) }
  let u2 := u1 || s1.imageDetail.isNone
  let s2 := { s1 with imageDetail := some (s1.imageDetail.getD DEFAULT_SETTINGS.imageDetail) }
  let u3 := u2 || s2.useDetailParameter.isNone
  let s3 := { s2 with useDetailParameter := some (s2.useDetailParameter.getD DEFAULT_SETTINGS.useDetailParameter) }
  let u4 := u3 || s3.geminiApiKey.isNone
  let s4 := { s3 with geminiApiKey := some (s3.geminiApiKey.getD DEFAULT_SETTINGS.geminiApiKey) }
  let u5 := u4 || s4.geminiModel.isNone
  let s5 := { s4 with geminiModel := some (s4.geminiModel.getD DEFAULT_SETTINGS.geminiModel) }
  let u6 := u5 || s5.geminiSystemInstruction.isNone
  let s6 := { s5 with geminiSystemInstruction := some (s5.geminiSystemInstruction.getD DEFAULT_SETTINGS.geminiSystemInstruction) }
  let u7 := u6 || s6.preferredProvider.isNone
  let s7 := { s6 with preferredProvider := some (s6.preferredProvider.getD DEFAULT_SETTINGS.preferredProvider) }
  let u8 := u7 || s7.useGeminiForVideos.isNone
  let s8 := { s7 with useGeminiForVideos := some (s7.useGeminiForVideos.getD DEFAULT_SETTINGS.useGeminiForVideos) }
  (s8, u8)

/-- `loadSettings` from `src/lib/settings.ts`: initialises the store with
the defaults when the `'settings'` key is absent, migrates missing fields
in (persisting the migrated record when anything changed), and returns the
settings record together with the updated store. -/
def loadSettings (store : SettingsStore) : StoredSettings × SettingsStore :=
  match store with
  | none => (toStored DEFAULT_SETTINGS, some (toStored DEFAULT_SETTINGS))
  | some s =>
      let (migrated, needsUpdate) := migrateSettings s
      (migrated, if needsUpdate then some migrated else some s)

/-- `saveSettings` from `src/lib/settings.ts`: stores the record under the
`'settings'` key and persists. -/
def saveSettings (settings : StoredSettings) (_store : SettingsStore) : SettingsStore :=
  some settings

/-- The keys of `AppSettings` (`keyof AppSettings`). -/
inductive SettingsKey where
  | apiUrl
  | apiKey
  | captionPrompt
  | model
  | imageDetail
  | useDetailParameter
  | geminiApiKey
  | geminiModel
  | geminiSystemInstruction
  | preferredProvider
  | useGeminiForVideos
deriving DecidableEq, Repr

/-- The value type of each settings key (`AppSettings[K]`). -/
def SettingsKey.Val : SettingsKey → Type
  | SettingsKey.apiUrl => String
  | SettingsKey.apiKey => String
  | SettingsKey.captionPrompt => String
  | SettingsKey.model => String
  | SettingsKey.imageDetail => ImageDetailLevel
  | SettingsKey.useDetailParameter => Bool
  | SettingsKey.geminiApiKey => String
  | SettingsKey.geminiModel => String
  | SettingsKey.geminiSystemInstruction => String
  | SettingsKey.preferredProvider => ApiProvider
  | SettingsKey.useGeminiForVideos => Bool

/-- Reading field `k` of a stored settings record (`settings[k]`). -/
def getKey (s : StoredSettings) : (k : SettingsKey) → Option k.Val
  | SettingsKey.apiUrl => s.apiUrl
  | SettingsKey.apiKey => s.apiKey
  | SettingsKey.captionPrompt => s.captionPrompt
  | SettingsKey.model => s.model
  | SettingsKey.imageDetail => s.imageDetail
  | SettingsKey.useDetailParameter => s.useDetailParameter
  | SettingsKey.geminiApiKey => s.geminiApiKey
  | SettingsKey.geminiModel => s.geminiModel
  | SettingsKey.geminiSystemInstruction => s.geminiSystemInstruction
  | SettingsKey.preferredProvider => s.preferredProvider
  | SettingsKey.useGeminiForVideos => s.useGeminiForVideos

/-- Writing field `k` of a stored settings record (`settings[key] = value`). -/
def setKey (s : StoredSettings) : (k : SettingsKey) → k.Val → StoredSettings
  | SettingsKey.apiUrl, v => { s with apiUrl := some v }
  | SettingsKey.apiKey, v => { s with apiKey := some v }
  | SettingsKey.captionPrompt, v => { s with captionPrompt := some v }
  | SettingsKey.model, v => { s with model := some v }
  | SettingsKey.imageDetail, v => { s with imageDetail := some v }
  | SettingsKey.useDetailParameter, v => { s with useDetailParameter := some v }
  | SettingsKey.geminiApiKey, v => { s with geminiApiKey := some v }
  | SettingsKey.geminiModel, v => { s with geminiModel := some v }
  | SettingsKey.geminiSystemInstruction, v => { s with geminiSystemInstruction := some v }
  | SettingsKey.preferredProvider, v => { s with preferredProvider := some v }
  | SettingsKey.useGeminiForVideos, v => { s with useGeminiForVideos := some v }

/-- `updateSetting` from `src/lib/settings.ts`: load the settings, set the
field, save the result. -/
def updateSetting (k : SettingsKey) (v : k.Val) (store : SettingsStore) : SettingsStore :=
  let (settings, store1) := loadSettings store
  saveSettings (setKey settings k v) store1

/-! ## Thumbnails (`useFileSystem.generateThumbnails`, `App.tsx` loader)

`getMediaThumbnail` (an HTML-canvas routine in `src/lib/media.ts`) is
abstracted as an oracle `String → Option String` from media path to
thumbnail data URL, `none` standing for a thrown error.  The `for` loop
`for (let i = 0; i < total; i += batchSize)` with `slice(i, i + batchSize)`
is the `chunksOf` decomposition; within a batch each task performs one
atomic functional state update (`setMediaFiles(prev => ...)`), so the final
state is the left fold of the per-file updates. -/

/-- The filter of `generateThumbnails`: keep files whose `type` or
`file_type` is `'video'` or `'image'`. -/
def isMediaFileType (f : MediaFile) : Bool :=
  (f.type = some "video" || f.file_type = "video") ||
  (f.type = some "image" || f.file_type = "image")

/-- Worker for `chunksOf`: `fuel` bounds the number of loop iterations
(the TypeScript loop runs at most `total` times, one per list element);
each iteration takes one batch and drops `max 1 n` elements (`max 1`
keeps a degenerate `n = 0` from looping; the code always passes `n = 5`). -/
def chunksOfGo (n : Nat) : Nat → List α → List (List α)
  | _, [] => []
  | 0, _ :: _ => []
  | Nat.succ fuel, x :: xs =>
      (x :: xs).take n :: chunksOfGo n fuel ((x :: xs).drop (max 1 n))

/-- The batches visited by `for (let i = 0; i < total; i += batchSize)`
with `slice(i, i + batchSize)`: consecutive chunks of `n` elements, the
last possibly shorter. -/
def chunksOf (n : Nat) (l : List α) : List (List α) :=
  chunksOfGo n l.length l

/-- One thumbnail task of `generateThumbnails`: try the oracle on the
file's path; on success map the state, updating the file with the matching
`id`; on failure (the `catch` branch) leave the state unchanged.  The
second component logs the path attempted. -/
def thumbnailStep (oracle : String → Option String)
    (acc : List MediaFile × List String) (file : MediaFile) :
    List MediaFile × List String :=
  match oracle file.path with
  | some thumbnail =>
      (acc.1.map (fun f => if f.id = file.id then { f with thumbnail := some thumbnail } else f),
       acc.2 ++ [file.path])
  | none => (acc.1, acc.2 ++ [file.path])

/-- `generateThumbnails` from the `useFileSystem` hook
(`src/lib/api.ts`): filter to media files, return early when none, then
process batches of `batchSize = 5`, each batch's tasks updating the state.
Returns the final state and the list of paths attempted, in order. -/
def generateThumbnails (oracle : String → Option String)
    (files : List MediaFile) (state : List MediaFile) :
    List MediaFile × List String :=
  let mediaFiles := files.filter isMediaFileType
  if mediaFiles.isEmpty then (state, [])
  else
    (chunksOf 5 mediaFiles).foldl
      (fun acc batch => batch.foldl (thumbnailStep oracle) acc) (state, [])

/-- The `imagesToProcess` selection of the `loadThumbnails` effect in
`src/App.tsx`: image files without a thumbnail, at most 20 per pass
(`.slice(0, 20)`). -/
def imagesToProcess (mediaFiles : List MediaFile) : List MediaFile :=
  (mediaFiles.filter (fun file =>
    (file.type = some "image" || file.file_type = "image") && file.thumbnail = none)).take 20

/-! ## Caption generation (`src/lib/api.ts`, `src/App.tsx`)

The backend calls are modelled as request values: which Tauri command is
invoked, with which arguments.  `generate_captions` itself is a Rust
command missing from the snapshot and is modelled from the spec. -/

/-- A caption request as sent to the backend: either the OpenAI-compatible
`generate_caption` invoke or the Gemini `generate_gemini_caption` invoke,
with the arguments the TypeScript passes. -/
inductive CaptionRequest where
  | openai (apiUrl apiKey prompt imagePath model : String)
      (imageDetail : ImageDetailLevel) (useDetailParameter : Bool)
      (videoFrameUrl : Option String)
  | gemini (apiKey prompt mediaPath : String) (systemInstruction : Option String)
deriving DecidableEq, Repr

/-- `generateCaption` from `src/lib/api.ts`: the OpenAI-compatible invoke. -/
def generateCaption (apiUrl apiKey prompt mediaPath model : String)
    (imageDetail : ImageDetailLevel) (useDetailParameter : Bool)
    (videoFrameUrl : Option String) : CaptionRequest :=
  CaptionRequest.openai apiUrl apiKey prompt mediaPath model imageDetail
    useDetailParameter videoFrameUrl

/-- `generateGeminiCaption` from `src/lib/api.ts`: the Gemini invoke (the
dispatcher passes no temperature). -/
def generateGeminiCaption (apiKey prompt mediaPath : String)
    (systemInstruction : Option String) : CaptionRequest :=
  CaptionRequest.gemini apiKey prompt mediaPath systemInstruction

/-- `generateCaptionWithPreferredProvider` from `src/lib/api.ts`:
`useGemini = isVideo && settings.useGeminiForVideos ? true :
settings.preferredProvider === 'gemini'`, then dispatch to the Gemini or
the OpenAI-compatible client with the corresponding settings fields. -/
def generateCaptionWithPreferredProvider (mediaPath : String)
    (settings : AppSettings) (isVideo : Bool) (videoFrameUrl : Option String) :
    CaptionRequest :=
  let useGemini :=
    if isVideo && settings.useGeminiForVideos then true
    else settings.preferredProvider = ApiProvider.gemini
  if useGemini then
    generateGeminiCaption settings.geminiApiKey settings.captionPrompt mediaPath
      (some settings.geminiSystemInstruction)
  else
    generateCaption settings.apiUrl settings.apiKey settings.captionPrompt mediaPath
      settings.model settings.imageDetail settings.useDetailParameter videoFrameUrl

/-- Whether a caption request goes to the Gemini client. -/
def CaptionRequest.isGemini : CaptionRequest → Bool
  | CaptionRequest.gemini _ _ _ _ => true
  | CaptionRequest.openai _ _ _ _ _ _ _ _ => false

/-- Modelled from the spec: the Rust `generate_captions` command.  Missing
from the snapshot (only its `invoke` declaration in `src/lib/api.ts` is
present).  Spec §4.4: issues one request per file, "collecting (path,
caption) pairs; a failure on one file does not abort the batch — it is
reported per-file".  The per-file outcome (`oracle`) is a caption or an
error, and each input path yields exactly one pair. -/
def generate_captions (oracle : String → Except String String)
    (imagePaths : List String) : List (String × Except String String) :=
  imagePaths.map (fun path => (path, oracle path))

/-- The batch-caption flow of `handleGenerateCaptions` in `src/App.tsx`:
take the selected files (`mediaFiles.filter(f => f.selected)`), map them to
their paths, and call `generate_captions` on those paths. -/
def handleGenerateCaptions (oracle : String → Except String String)
    (mediaFiles : List MediaFile) : List (String × Except String String) :=
  let selectedFiles := mediaFiles.filter (fun f => f.selected)
  let imagePaths := selectedFiles.map (fun file => file.path)
  generate_captions oracle imagePaths

/-! ## The media-file list invariant (`src/lib/api.ts` hook state)

`localeCompare` is locale-dependent; it is abstracted as a comparator
`le : String → String → Bool` (`le a b` = "`a.localeCompare(b) ≤ 0`"),
assumed total and transitive where needed.  `Array.prototype.sort` with
the comparator `(a, b) => a.name.localeCompare(b.name)` produces a list
sorted under that comparator; it is modelled by `List.insertionSort`. -/

/-- The order on media files used by every `sort` call of the hook:
compare `name` fields with the comparator. -/
def nameLe (le : String → String → Bool) (a b : MediaFile) : Prop :=
  le a.name b.name = true

instance (le : String → String → Bool) : DecidableRel (nameLe le) :=
  fun _ _ => instDecidableEqBool _ _

/-- `[...files].sort((a, b) => a.name.localeCompare(b.name))` as used by
`selectSourceDirectory`, `loadMediaFiles`, `loadExistingProject` and
`duplicateFile`. -/
def sortByName (le : String → String → Bool) (files : List MediaFile) : List MediaFile :=
  List.insertionSort (nameLe le) files

/-- The media-file list is alphabetically sorted by name under the
comparator. -/
def SortedByName (le : String → String → Bool) (l : List MediaFile) : Prop :=
  List.Sorted (nameLe le) l

/-- `updateFileSelection` from the `useFileSystem` hook: update the
`selected` flag of the file with the given id, replacing its thumbnail
when one is supplied (`thumbnail || f.thumbnail`). -/
def updateFileSelection (fileId : String) (selected : Bool)
    (thumbnail : Option String) (state : List MediaFile) : List MediaFile :=
  state.map (fun f =>
    if f.id = fileId then
      { f with selected := selected,
               thumbnail := match thumbnail with
                            | some t => some t
                            | none => f.thumbnail }
    else f)

/-- The state update of `removeFile` from the `useFileSystem` hook:
`prev.filter(f => f.id !== mediaFile.id)`. -/
def removeFile (mediaFile : MediaFile) (state : List MediaFile) : List MediaFile :=
  state.filter (fun f => f.id ≠ mediaFile.id)

/-- The state update of `duplicateFile` from the `useFileSystem` hook:
append the new (enhanced) file with its freshly generated thumbnail and
sort alphabetically again. -/
def duplicateFile (le : String → String → Bool) (enhancedFile : MediaFile)
    (thumbnail : Option String) (state : List MediaFile) : List MediaFile :=
  sortByName le (state ++ [{ enhancedFile with thumbnail := thumbnail }])

/-- The per-file outcome of a thumbnail pass over the media files `l`: the
state entry `f` gets the thumbnail of the (first) media file sharing its
`id` when the oracle succeeds on it, and is untouched otherwise — in
particular a failing file leaves its entry unchanged. -/
def thumbResult (oracle : String → Option String) (l : List MediaFile)
    (f : MediaFile) : MediaFile :=
  match l.find? (fun m => m.id = f.id) with
  | some m =>
      match oracle m.path with
      | some t => { f with thumbnail := some t }
      | none => f
  | none => f

/-- A minimal image `MediaFile` used to instantiate the theorems on
concrete inputs. -/
def sampleFile (nm : String) : MediaFile :=
  { id := nm
    name := nm
    path := nm
    relative_path := nm
    file_type := "image"
    has_caption := false
    type := none
    selected := false
    thumbnail := none
    refreshToken := none }

/-- A thumbnail oracle that succeeds on `a.png` only, for concrete
instantiations. -/
def flakyOracle : String → Option String :=
  fun p => if p = "a.png" then some "thumbA" else none

/-- A concrete comparator instantiating the abstract `localeCompare`
order: the linear order on Lean strings, as a boolean. -/
def stringLeB (a b : String) : Bool := decide (a ≤ b)

/-! ## Helper lemmas -/

theorem takeWhile_all_append_cons {α : Type} (p : α → Bool) (l1 : List α) (a : α)
    (l2 : List α) (h1 : ∀ c ∈ l1, p c = true) (ha : p a = false) :
    (l1 ++ a :: l2).takeWhile p = l1 := by
  induction l1 with
  | nil => simp [List.takeWhile, ha]
  | cons x xs ih =>
      have hx : p x = true := h1 x (List.mem_cons_self x xs)
      simp only [List.cons_append, List.takeWhile, hx]
      simp only [List.cons.injEq, true_and]
      exact ih (fun c hc => h1 c (List.mem_cons_of_mem x hc))

theorem dropWhile_all_append_cons {α : Type} (p : α → Bool) (l1 : List α) (a : α)
    (l2 : List α) (h1 : ∀ c ∈ l1, p c = true) (ha : p a = false) :
    (l1 ++ a :: l2).dropWhile p = a :: l2 := by
  induction l1 with
  | nil => simp [List.dropWhile, ha]
  | cons x xs ih =>
      have hx : p x = true := h1 x (List.mem_cons_self x xs)
      simp only [List.cons_append, List.dropWhile, hx]
      exact ih (fun c hc => h1 c (List.mem_cons_of_mem x hc))

theorem duplicate_directory_eq (d : Dir) : duplicate_directory d = d := by
  unfold duplicate_directory
  induction d with
  | nil => rfl
  | cons e rest ih => simp only [List.foldr_cons, ih]

/-! ## Claims -/

/-- C1: for every media file and caption string, writing the caption
(which overwrites the sidecar entirely) and then reading it back for the
same file returns exactly the content written. -/
theorem C1_write_then_read (fs : Fs) (state : List MediaFile)
    (mediaFile : MediaFile) (content : String) :
    readCaption (writeCaption fs state mediaFile content).1 mediaFile = content := by
  simp [readCaption, writeCaption, write_caption_file, read_caption_file]

/-- C2: for a media file whose caption sidecar is absent, `readCaption`
returns the empty string rather than propagating the error, and the
directory lister reports the file as having no caption. -/
theorem C2_read_absent_caption (fs : Fs) (mediaFile : MediaFile)
    (habsent : fs (getCaptionPath mediaFile.path) = none)
    (imageExts videoExts : List String) (directory : String) (d : Dir)
    (f : MediaFile) (hf : f ∈ list_directory_files imageExts videoExts directory d)
    (hside : ∀ e ∈ d, e.1 ≠ getCaptionPath f.relative_path) :
    readCaption fs mediaFile = "" ∧ f.has_caption = false := by
  constructor
  · simp [readCaption, read_caption_file, habsent]
  · simp only [list_directory_files, List.mem_map, List.mem_filter] at hf
    obtain ⟨e, ⟨_, _⟩, hfe⟩ := hf
    subst hfe
    simp only [decide_eq_false_iff_not, ne_eq, Decidable.not_not]
    rw [List.filter_eq_nil_iff]
    intro s hs
    simpa using hside s hs

/-- C3: generating captions for the selected files yields exactly one
(path, result) pair per selected file — per-file failures are reported in
place and do not abort the batch or reduce the count. -/
theorem C3_batch_counts (oracle : String → Except String String)
    (mediaFiles : List MediaFile) :
    (handleGenerateCaptions oracle mediaFiles).length =
      (mediaFiles.filter (fun f => f.selected)).length ∧
    (handleGenerateCaptions oracle mediaFiles).map Prod.fst =
      (mediaFiles.filter (fun f => f.selected)).map (fun f => f.path) := by
  constructor
  · simp [handleGenerateCaptions, generate_captions]
  · simp [handleGenerateCaptions, generate_captions, List.map_map]

/-- C4: duplicating a directory is a full recursive copy — listing the
duplicate yields the same media files, and in particular the same file
set identified by relative path, as listing the source. -/
theorem C4_duplicate_then_list (imageExts videoExts : List String)
    (directory : String) (d : Dir) :
    (list_directory_files imageExts videoExts directory (duplicate_directory d)).map
        (fun f => f.relative_path) =
      (list_directory_files imageExts videoExts directory d).map
        (fun f => f.relative_path) ∧
    list_directory_files imageExts videoExts directory (duplicate_directory d) =
      list_directory_files imageExts videoExts directory d := by
  rw [duplicate_directory_eq]
  exact ⟨rfl, rfl⟩

/-- C5: for every media file path — a path whose final extension is
non-empty and contains neither a dot nor a path separator — the caption
sidecar path is the media path with that final extension replaced by
`.txt`: a text file sharing the media file's basename, beside it. -/
theorem C5_caption_path (stem ext : List Char)
    (hne : ext ≠ []) (hdot : '.' ∉ ext) (_hslash : '/' ∉ ext) :
    getCaptionPath (String.mk (stem ++ '.' :: ext)) =
      String.mk (stem ++ ".txt".toList) := by
  have hrev : (stem ++ '.' :: ext).reverse = ext.reverse ++ '.' :: stem.reverse := by
    simp
  have hall : ∀ c ∈ ext.reverse, (fun c => decide (c ≠ '.')) c = true := by
    intro c hc
    simp only [decide_eq_true_eq, ne_eq]
    intro h
    exact hdot (h ▸ List.mem_reverse.mp hc)
  have hdotc : (fun c => decide (c ≠ '.')) '.' = false := by simp
  unfold getCaptionPath
  simp only [String.toList]
  show (match ((String.mk (stem ++ '.' :: ext)).data.reverse.dropWhile fun c => decide (c ≠ '.')) with
        | [] => String.mk (stem ++ '.' :: ext)
        | _ :: s =>
          if ((String.mk (stem ++ '.' :: ext)).data.reverse.takeWhile fun c => decide (c ≠ '.')).isEmpty
          then String.mk (stem ++ '.' :: ext)
          else String.mk (s.reverse ++ ".txt".toList)) = String.mk (stem ++ ".txt".toList)
  have hdata : (String.mk (stem ++ '.' :: ext)).data = stem ++ '.' :: ext := rfl
  rw [hdata, hrev, dropWhile_all_append_cons _ _ _ _ hall hdotc,
    takeWhile_all_append_cons _ _ _ _ hall hdotc]
  have hemp : ext.reverse.isEmpty = false := by
    cases h : ext.reverse with
    | nil => exact absurd (List.reverse_eq_nil_iff.mp h) hne
    | cons x xs => rfl
  simp [hemp]

/-- C5 witness: the sidecar of `/photos/cat.png` is `/photos/cat.txt`. -/
theorem C5_caption_path_witness :
    getCaptionPath (String.mk ("/photos/cat".toList ++ '.' :: "png".toList)) =
      String.mk ("/photos/cat".toList ++ ".txt".toList) :=
  C5_caption_path "/photos/cat".toList "png".toList (by decide) (by decide) (by decide)

theorem migrateSettings_toStored (S : AppSettings) :
    migrateSettings (toStored S) = (toStored S, false) := rfl

theorem migrateSettings_setKey_toStored (S : AppSettings) (k : SettingsKey) (v : k.Val) :
    migrateSettings (setKey (toStored S) k v) = (setKey (toStored S) k v, false) := by
  cases k <;> rfl

theorem getKey_setKey_same (s : StoredSettings) (k : SettingsKey) (v : k.Val) :
    getKey (setKey s k v) k = some v := by
  cases k <;> rfl

theorem getKey_setKey_other (s : StoredSettings) (k k' : SettingsKey) (v : k.Val)
    (h : k' ≠ k) : getKey (setKey s k v) k' = getKey s k' := by
  cases k <;> cases k' <;> first
    | rfl
    | exact absurd rfl h

/-- C7: starting from a previously saved full settings record `S`,
updating key `k` to `v` and loading the settings back yields a record
whose field `k` is `v` and whose every other field is unchanged — last
saved wins, no other field changes. -/
theorem C7_update_setting (S : AppSettings) (k : SettingsKey) (v : k.Val) :
    getKey (loadSettings (updateSetting k v (some (toStored S)))).1 k = some v ∧
    ∀ k', k' ≠ k →
      getKey (loadSettings (updateSetting k v (some (toStored S)))).1 k' =
        getKey (toStored S) k' := by
  have hload :
      (loadSettings (updateSetting k v (some (toStored S)))).1 = setKey (toStored S) k v := by
    show (loadSettings (saveSettings (setKey (loadSettings (some (toStored S))).1 k v)
      (loadSettings (some (toStored S))).2)).1 = _
    simp only [loadSettings, migrateSettings_toStored, saveSettings,
      migrateSettings_setKey_toStored, Bool.false_eq_true, if_false]
  rw [hload]
  exact ⟨getKey_setKey_same _ k v, fun k' h => getKey_setKey_other _ k k' v h⟩

/-- C7 witness: after saving the defaults and updating `apiKey` to
`"secret"`, loading returns `apiKey = "secret"` and an unchanged `model`. -/
theorem C7_update_setting_witness :
    getKey (loadSettings (updateSetting SettingsKey.apiKey "secret"
        (some (toStored DEFAULT_SETTINGS)))).1 SettingsKey.apiKey = some "secret" ∧
    getKey (loadSettings (updateSetting SettingsKey.apiKey "secret"
        (some (toStored DEFAULT_SETTINGS)))).1 SettingsKey.model =
      getKey (toStored DEFAULT_SETTINGS) SettingsKey.model :=
  ⟨(C7_update_setting DEFAULT_SETTINGS SettingsKey.apiKey "secret").1,
   (C7_update_setting DEFAULT_SETTINGS SettingsKey.apiKey "secret").2
     SettingsKey.model (by decide)⟩

/-- C10: the preferred-provider dispatcher sends the request to the Gemini
client exactly when the media is a video and `useGeminiForVideos` is set,
or the preferred provider is `'gemini'`; in every other case it sends an
OpenAI-compatible request built from the OpenAI settings. -/
theorem C10_provider_dispatch (settings : AppSettings) (mediaPath : String)
    (isVideo : Bool) (videoFrameUrl : Option String) :
    ((generateCaptionWithPreferredProvider mediaPath settings isVideo videoFrameUrl).isGemini
        = true ↔
      (isVideo = true ∧ settings.useGeminiForVideos = true) ∨
        settings.preferredProvider = ApiProvider.gemini) ∧
    ((generateCaptionWithPreferredProvider mediaPath settings isVideo videoFrameUrl).isGemini
        = true →
      generateCaptionWithPreferredProvider mediaPath settings isVideo videoFrameUrl =
        CaptionRequest.gemini settings.geminiApiKey settings.captionPrompt mediaPath
          (some settings.geminiSystemInstruction)) ∧
    ((generateCaptionWithPreferredProvider mediaPath settings isVideo videoFrameUrl).isGemini
        = false →
      generateCaptionWithPreferredProvider mediaPath settings isVideo videoFrameUrl =
        CaptionRequest.openai settings.apiUrl settings.apiKey settings.captionPrompt
          mediaPath settings.model settings.imageDetail settings.useDetailParameter
          videoFrameUrl) := by
  unfold generateCaptionWithPreferredProvider generateGeminiCaption generateCaption
  cases isVideo <;> cases hvid : settings.useGeminiForVideos <;>
    rcases hpref : settings.preferredProvider with _ | _ <;>
      simp [CaptionRequest.isGemini, hpref]

/-- C10 witness: with the default settings (preferred provider OpenAI,
Gemini used for videos), a video dispatches to Gemini and an image to the
OpenAI client. -/
theorem C10_provider_dispatch_witness :
    generateCaptionWithPreferredProvider "/work/clip.mp4" DEFAULT_SETTINGS true none =
      CaptionRequest.gemini DEFAULT_SETTINGS.geminiApiKey DEFAULT_SETTINGS.captionPrompt
        "/work/clip.mp4" (some DEFAULT_SETTINGS.geminiSystemInstruction) ∧
    generateCaptionWithPreferredProvider "/work/cat.png" DEFAULT_SETTINGS false none =
      CaptionRequest.openai DEFAULT_SETTINGS.apiUrl DEFAULT_SETTINGS.apiKey
        DEFAULT_SETTINGS.captionPrompt "/work/cat.png" DEFAULT_SETTINGS.model
        DEFAULT_SETTINGS.imageDetail DEFAULT_SETTINGS.useDetailParameter none :=
  ⟨(C10_provider_dispatch DEFAULT_SETTINGS "/work/clip.mp4" true none).2.1 (by rfl),
   (C10_provider_dispatch DEFAULT_SETTINGS "/work/cat.png" false none).2.2 (by rfl)⟩

theorem chunksOfGo_flatten {α : Type} (n : Nat) (hn : 1 ≤ n) (fuel : Nat)
    (l : List α) (hfuel : l.length ≤ fuel) :
    (chunksOfGo n fuel l).flatten = l := by
  induction fuel generalizing l with
  | zero =>
      cases l with
      | nil => rfl
      | cons x xs => simp at hfuel
  | succ fuel ih =>
      cases l with
      | nil => rfl
      | cons x xs =>
          simp only [chunksOfGo, List.flatten_cons]
          rw [ih ((x :: xs).drop (max 1 n)) (by
              rw [Nat.max_eq_right hn, List.length_drop]
              simp only [List.length_cons] at hfuel ⊢
              omega),
            Nat.max_eq_right hn, List.take_append_drop]

theorem chunksOf_flatten {α : Type} (n : Nat) (hn : 1 ≤ n) (l : List α) :
    (chunksOf n l).flatten = l :=
  chunksOfGo_flatten n hn l.length l (Nat.le_refl _)

theorem chunksOfGo_mem {α : Type} (n : Nat) (hn : 1 ≤ n) (fuel : Nat) (l : List α)
    (hfuel : l.length ≤ fuel) (b : List α) (hb : b ∈ chunksOfGo n fuel l) :
    b.length ≤ n ∧ b ≠ [] := by
  induction fuel generalizing l with
  | zero =>
      cases l with
      | nil => simp [chunksOfGo] at hb
      | cons x xs => simp at hfuel
  | succ fuel ih =>
      cases l with
      | nil => simp [chunksOfGo] at hb
      | cons x xs =>
          simp only [chunksOfGo] at hb
          rcases List.mem_cons.mp hb with h | h
          · subst h
            refine ⟨List.length_take_le n _, List.ne_nil_of_length_pos ?_⟩
            rw [List.length_take, List.length_cons]
            omega
          · refine ih ((x :: xs).drop (max 1 n)) ?_ h
            rw [Nat.max_eq_right hn, List.length_drop]
            simp only [List.length_cons] at hfuel ⊢
            omega

theorem chunksOf_mem {α : Type} (n : Nat) (hn : 1 ≤ n) (l : List α) (b : List α)
    (hb : b ∈ chunksOf n l) : b.length ≤ n ∧ b ≠ [] :=
  chunksOfGo_mem n hn l.length l (Nat.le_refl _) b hb

theorem generateThumbnails_eq_foldl (oracle : String → Option String)
    (files : List MediaFile) (state : List MediaFile) :
    generateThumbnails oracle files state =
      (files.filter isMediaFileType).foldl (thumbnailStep oracle) (state, []) := by
  by_cases h : (files.filter isMediaFileType).isEmpty
  · rw [List.isEmpty_iff] at h
    simp [generateThumbnails, h]
  · rw [Bool.not_eq_true] at h
    simp only [generateThumbnails, h, Bool.false_eq_true, if_false]
    rw [← List.foldl_flatten, chunksOf_flatten 5 (by omega)]

theorem foldl_thumbnailStep_log (oracle : String → Option String)
    (l : List MediaFile) (acc : List MediaFile × List String) :
    (l.foldl (thumbnailStep oracle) acc).2 = acc.2 ++ l.map (fun f => f.path) := by
  induction l generalizing acc with
  | nil => simp
  | cons m rest ih =>
      rw [List.foldl_cons, ih]
      cases h : oracle m.path <;> simp [thumbnailStep, h]

theorem thumbResult_notin (oracle : String → Option String)
    (rest : List MediaFile) (f : MediaFile)
    (h : f.id ∉ rest.map (fun x => x.id)) : thumbResult oracle rest f = f := by
  unfold thumbResult
  have hfind : rest.find? (fun mm => mm.id = f.id) = none := by
    refine List.find?_eq_none.mpr ?_
    intro x hx
    simp only [decide_eq_true_eq]
    intro he
    exact h (he ▸ List.mem_map_of_mem (fun x => x.id) hx)
  rw [hfind]

theorem thumbResult_cons (oracle : String → Option String) (m : MediaFile)
    (rest : List MediaFile) (f : MediaFile) :
    thumbResult oracle (m :: rest) f =
      if f.id = m.id then
        match oracle m.path with
        | some t => { f with thumbnail := some t }
        | none => f
      else thumbResult oracle rest f := by
  unfold thumbResult
  rw [List.find?_cons]
  by_cases hid : f.id = m.id
  · rw [if_pos hid, show (decide (m.id = f.id)) = true from decide_eq_true hid.symm]
  · rw [if_neg hid,
      show (decide (m.id = f.id)) = false from decide_eq_false (fun h => hid h.symm)]

theorem foldl_thumbnailStep_state (oracle : String → Option String)
    (l : List MediaFile) (st : List MediaFile) (log : List String)
    (h : (l.map (fun f => f.id)).Nodup) :
    (l.foldl (thumbnailStep oracle) (st, log)).1 =
      st.map (thumbResult oracle l) := by
  induction l generalizing st log with
  | nil =>
      simp only [List.foldl_nil]
      rw [show thumbResult oracle [] = fun f => f from funext (fun f => rfl)]
      exact (List.map_id' st).symm
  | cons m rest ih =>
      simp only [List.map_cons, List.nodup_cons] at h
      obtain ⟨hm, hrest⟩ := h
      rw [List.foldl_cons]
      cases horacle : oracle m.path with
      | some t =>
          have hstep : thumbnailStep oracle (st, log) m =
              (st.map (fun f => if f.id = m.id then { f with thumbnail := some t } else f),
               log ++ [m.path]) := by
            simp [thumbnailStep, horacle]
          rw [hstep, ih _ _ hrest, List.map_map]
          refine List.map_congr_left ?_
          intro f _
          simp only [Function.comp_apply]
          by_cases hid : f.id = m.id
          · rw [if_pos hid,
              thumbResult_notin oracle rest { f with thumbnail := some t }
                (show f.id ∉ rest.map (fun x => x.id) by rw [hid]; exact hm),
              thumbResult_cons, if_pos hid, horacle]
          · rw [if_neg hid, thumbResult_cons, if_neg hid]
      | none =>
          have hstep : thumbnailStep oracle (st, log) m = (st, log ++ [m.path]) := by
            simp [thumbnailStep, horacle]
          rw [hstep, ih _ _ hrest]
          refine List.map_congr_left ?_
          intro f _
          by_cases hid : f.id = m.id
          · rw [thumbResult_notin oracle rest f
                (show f.id ∉ rest.map (fun x => x.id) by rw [hid]; exact hm),
              thumbResult_cons, if_pos hid, horacle]
          · rw [thumbResult_cons, if_neg hid]

/-- C6: a thumbnail-generation failure on one file does not abort the
scan — every media file in the list is attempted regardless of the
oracle's failures — and the resulting file list is the input state with
each entry's thumbnail filled in exactly when the oracle succeeded on its
file; a failing file leaves its entry unchanged. -/
theorem C6_thumbnail_failures (oracle : String → Option String)
    (files : List MediaFile) (state : List MediaFile)
    (h : ((files.filter isMediaFileType).map (fun f => f.id)).Nodup) :
    (generateThumbnails oracle files state).2 =
      (files.filter isMediaFileType).map (fun f => f.path) ∧
    (generateThumbnails oracle files state).1 =
      state.map (thumbResult oracle (files.filter isMediaFileType)) := by
  rw [generateThumbnails_eq_foldl]
  constructor
  · rw [foldl_thumbnailStep_log]
    simp
  · exact foldl_thumbnailStep_state oracle _ state [] h

/-- C6 witness: with an oracle that fails on `b.png`, both files are
attempted and the failing file's entry is unchanged. -/
theorem C6_thumbnail_failures_witness :
    (([sampleFile "a.png", sampleFile "b.png"].filter isMediaFileType).map
        (fun f => f.id)).Nodup ∧
    (generateThumbnails flakyOracle [sampleFile "a.png", sampleFile "b.png"]
        [sampleFile "a.png", sampleFile "b.png"]).2 =
      ([sampleFile "a.png", sampleFile "b.png"].filter isMediaFileType).map
        (fun f => f.path) ∧
    (generateThumbnails flakyOracle [sampleFile "a.png", sampleFile "b.png"]
        [sampleFile "a.png", sampleFile "b.png"]).1 =
      [sampleFile "a.png", sampleFile "b.png"].map
        (thumbResult flakyOracle
          ([sampleFile "a.png", sampleFile "b.png"].filter isMediaFileType)) :=
  ⟨by decide,
   C6_thumbnail_failures flakyOracle [sampleFile "a.png", sampleFile "b.png"]
     [sampleFile "a.png", sampleFile "b.png"] (by decide)⟩

/-- C8: thumbnail generation processes the media files in consecutive
batches of a fixed, non-adaptive size — every batch `generateThumbnails`
iterates over has between 1 and 5 files, their concatenation is exactly
the media-file list (so every media file is attempted exactly once, as
the attempt log shows), and the `App.tsx` loader takes at most 20 images
per pass. -/
theorem C8_fixed_batches (oracle : String → Option String)
    (files : List MediaFile) (state : List MediaFile)
    (mediaFiles : List MediaFile) :
    (generateThumbnails oracle files state).2 =
      (files.filter isMediaFileType).map (fun f => f.path) ∧
    (chunksOf 5 (files.filter isMediaFileType)).flatten =
      files.filter isMediaFileType ∧
    (∀ b ∈ chunksOf 5 (files.filter isMediaFileType), b.length ≤ 5 ∧ b ≠ []) ∧
    (imagesToProcess mediaFiles).length ≤ 20 := by
  refine ⟨?_, chunksOf_flatten 5 (by omega) _, ?_, ?_⟩
  · rw [generateThumbnails_eq_foldl, foldl_thumbnailStep_log]
    simp
  · intro b hb
    exact chunksOf_mem 5 (by omega) _ b hb
  · exact List.length_take_le 20 _

/-- C8 witness: six sample media files split into a batch of five and a
batch of one, each batch within the size bound. -/
theorem C8_fixed_batches_witness :
    (generateThumbnails flakyOracle
        [sampleFile "a.png", sampleFile "b.png", sampleFile "c.png", sampleFile "d.png", sampleFile "e.png", sampleFile "f.png"]
        [sampleFile "a.png", sampleFile "b.png", sampleFile "c.png", sampleFile "d.png", sampleFile "e.png", sampleFile "f.png"]).2 =
      (([sampleFile "a.png", sampleFile "b.png", sampleFile "c.png", sampleFile "d.png", sampleFile "e.png", sampleFile "f.png"]).filter
          isMediaFileType).map (fun f => f.path) ∧
    (([sampleFile "a.png", sampleFile "b.png", sampleFile "c.png", sampleFile "d.png", sampleFile "e.png", sampleFile "f.png"]).filter
          isMediaFileType).take 5 ∈
      chunksOf 5 (([sampleFile "a.png", sampleFile "b.png", sampleFile "c.png", sampleFile "d.png", sampleFile "e.png", sampleFile "f.png"]).filter
          isMediaFileType) ∧
    ((([sampleFile "a.png", sampleFile "b.png", sampleFile "c.png", sampleFile "d.png", sampleFile "e.png", sampleFile "f.png"]).filter
          isMediaFileType).take 5).length ≤ 5 := by
  have h := C8_fixed_batches flakyOracle
    [sampleFile "a.png", sampleFile "b.png", sampleFile "c.png", sampleFile "d.png", sampleFile "e.png", sampleFile "f.png"]
    [sampleFile "a.png", sampleFile "b.png", sampleFile "c.png", sampleFile "d.png", sampleFile "e.png", sampleFile "f.png"]
    [sampleFile "a.png", sampleFile "b.png", sampleFile "c.png", sampleFile "d.png", sampleFile "e.png", sampleFile "f.png"]
  exact ⟨h.1, by decide, (h.2.2.1 _ (by decide)).1⟩

theorem sortedByName_map (le : String → String → Bool) (g : MediaFile → MediaFile)
    (hg : ∀ f, (g f).name = f.name) (st : List MediaFile)
    (hst : SortedByName le st) : SortedByName le (st.map g) := by
  refine List.Pairwise.map g ?_ hst
  intro a b hab
  unfold nameLe at hab ⊢
  rw [hg a, hg b]
  exact hab

theorem sortedByName_foldl_thumbnailStep (le : String → String → Bool)
    (oracle : String → Option String) (l : List MediaFile)
    (acc : List MediaFile × List String) (h : SortedByName le acc.1) :
    SortedByName le ((l.foldl (thumbnailStep oracle) acc)).1 := by
  induction l generalizing acc with
  | nil => exact h
  | cons m rest ih =>
      rw [List.foldl_cons]
      refine ih _ ?_
      cases horacle : oracle m.path with
      | none => simpa [thumbnailStep, horacle] using h
      | some t =>
          simp only [thumbnailStep, horacle]
          exact sortedByName_map le _
            (fun f => by by_cases hid : f.id = m.id <;> simp [hid]) acc.1 h

/-- C9: the in-memory media-file list is kept sorted alphabetically by
file name under the `localeCompare` comparator (abstracted as any total,
transitive boolean comparator `le`): the load paths
(`selectSourceDirectory`, `loadMediaFiles`, `loadExistingProject`) sort
the listing before setting state, and the state updates of
`writeCaption`, `updateFileSelection`, `generateThumbnails`, `removeFile`
and `duplicateFile` preserve sortedness. -/
theorem C9_sorted_invariant (le : String → String → Bool)
    (htot : ∀ a b, le a b = true ∨ le b a = true)
    (htrans : ∀ a b c, le a b = true → le b c = true → le a c = true) :
    (∀ files, SortedByName le (sortByName le files)) ∧
    (∀ fs st mediaFile content, SortedByName le st →
      SortedByName le (writeCaption fs st mediaFile content).2.1) ∧
    (∀ fileId selected thumbnail st, SortedByName le st →
      SortedByName le (updateFileSelection fileId selected thumbnail st)) ∧
    (∀ oracle files st, SortedByName le st →
      SortedByName le (generateThumbnails oracle files st).1) ∧
    (∀ mediaFile st, SortedByName le st →
      SortedByName le (removeFile mediaFile st)) ∧
    (∀ enhancedFile thumbnail st,
      SortedByName le (duplicateFile le enhancedFile thumbnail st)) := by
  letI : IsTotal MediaFile (nameLe le) := ⟨fun a b => htot a.name b.name⟩
  letI : IsTrans MediaFile (nameLe le) := ⟨fun a b c => htrans a.name b.name c.name⟩
  have hsort : ∀ files, SortedByName le (sortByName le files) :=
    fun files => List.sorted_insertionSort (nameLe le) files
  refine ⟨hsort, ?_, ?_, ?_, ?_, ?_⟩
  · intro fs st mediaFile content hst
    exact sortedByName_map le _
      (fun f => by by_cases hid : f.id = mediaFile.id <;> simp [hid]) st hst
  · intro fileId selected thumbnail st hst
    exact sortedByName_map le _
      (fun f => by by_cases hid : f.id = fileId <;> simp [hid]) st hst
  · intro oracle files st hst
    rw [generateThumbnails_eq_foldl]
    exact sortedByName_foldl_thumbnailStep le oracle _ (st, []) hst
  · intro mediaFile st hst
    exact List.Pairwise.filter _ hst
  · intro enhancedFile thumbnail st
    exact hsort _

theorem stringLeB_total (a b : String) : stringLeB a b = true ∨ stringLeB b a = true := by
  unfold stringLeB
  rcases le_total a b with h | h
  · exact Or.inl (decide_eq_true h)
  · exact Or.inr (decide_eq_true h)

theorem stringLeB_trans (a b c : String) :
    stringLeB a b = true → stringLeB b c = true → stringLeB a c = true := by
  unfold stringLeB
  intro h1 h2
  exact decide_eq_true (le_trans (of_decide_eq_true h1) (of_decide_eq_true h2))

/-- C9 witness: with the string order as comparator, sorting establishes
the invariant on a concrete two-file list and `writeCaption` preserves it. -/
theorem C9_sorted_invariant_witness :
    SortedByName stringLeB (sortByName stringLeB [sampleFile "b.png", sampleFile "a.png"]) ∧
    SortedByName stringLeB
      ((writeCaption (fun _ => none)
          (sortByName stringLeB [sampleFile "b.png", sampleFile "a.png"])
          (sampleFile "a.png") "a caption").2.1) := by
  have h := C9_sorted_invariant stringLeB stringLeB_total stringLeB_trans
  exact ⟨h.1 [sampleFile "b.png", sampleFile "a.png"],
    h.2.1 (fun _ => none) _ (sampleFile "a.png") "a caption"
      (h.1 [sampleFile "b.png", sampleFile "a.png"])⟩

/-- C2 witness: on an empty filesystem the caption of `a.png` reads back
as the empty string, and a directory holding only `a.png` lists it with
`has_caption = false`. -/
theorem C2_read_absent_caption_witness :
    ((fun _ => none : Fs) (getCaptionPath (sampleFile "a.png").path) = none) ∧
    readCaption (fun _ => none : Fs) (sampleFile "a.png") = "" ∧
    (MediaFile.mk "/w/a.png" "a.png" "/w/a.png" "a.png" "image" false none false
        none none).has_caption = false := by
  have h := C2_read_absent_caption (fun _ => none : Fs) (sampleFile "a.png") rfl
    ["png"] [] "/w" [("a.png", "content")]
    (MediaFile.mk "/w/a.png" "a.png" "/w/a.png" "a.png" "image" false none false
      none none)
    (by decide) (by decide)
  exact ⟨rfl, h.1, h.2⟩

end Spacecat
